import Mathlib

/-!
Verification of the remirror extension-composition core against its
natural-language specification.

The definitions below are a shallow embedding of the TypeScript sources:

* `src/@remirror/core-helpers/src/freeze.ts` (the `freeze` utility),
* `src/@remirror/extension-collaboration/src/collaboration-types.ts`
  (the `Sendable` and `JSONSendable` envelopes),
* `src/packages/@remirror/core/src/builtins/decorators.ts`
  (the `helper`, `command` and `keyBinding` decorators),
* `src/packages/@remirror/core/src/extension/extension-types.ts`
  (the `MapToUnchainedCommand` / `MapToChainedCommand` type mappings and
  the `HelpersExtension.onCreate` / `HelpersExtension.onView` hooks).

JavaScript plain objects are embedded as association lists
`List (String × α)` with JS assignment semantics (`objInsert` replaces the
value at an existing key in place, otherwise appends the key), and JS
`Set<string>` as a `List String` with membership test `strSetHas`.
-/

namespace Remirror

/-- Lookup of a property on a JS object: the value stored at the key. -/
def objLookup {α : Type} : List (String × α) → String → Option α
  | [], _ => none
  | p :: rest, k => if p.1 == k then some p.2 else objLookup rest k

/-- Whether a JS object has a property with the given key. -/
def objHasKey {α : Type} (l : List (String × α)) (k : String) : Bool :=
  (objLookup l k).isSome

/-- JS property assignment `obj[k] = v`: replaces the value at an existing
key (keeping the key's position) or appends a fresh key. -/
def objInsert {α : Type} : List (String × α) → String → α → List (String × α)
  | [], k, v => [(k, v)]
  | p :: rest, k, v => if p.1 == k then (k, v) :: rest else p :: objInsert rest k v

/-- `Object.keys` of a JS object. -/
def objKeys {α : Type} (l : List (String × α)) : List String :=
  l.map (fun p => p.1)

/-- The `isEmptyObject` check from `@remirror/core-helpers` applied to a JS
object embedded as an association list. -/
def isEmptyObject {α : Type} (l : List (String × α)) : Bool :=
  l.isEmpty

/-- Membership in a JS `Set<string>` (`set.has(name)`). -/
def strSetHas : List String → String → Bool
  | [], _ => false
  | x :: xs, s => x == s || strSetHas xs s

/-- The error codes from `@remirror/core-constants` used by the embedded
sources: `DUPLICATE_HELPER_NAMES` at the helper uniqueness check,
`MUTATION` and `CORE_HELPERS` inside `freeze`. -/
inductive ErrorConstant where
  | DUPLICATE_HELPER_NAMES
  | MUTATION
  | CORE_HELPERS
deriving DecidableEq

/-! ### freeze (src/@remirror/core-helpers/src/freeze.ts) -/

/-- A JS object with opaque property values, the target of `freeze`. -/
def Obj : Type := List (String × Nat)

/-- The value `freeze` can return: either the target passed back unchanged,
or a `Proxy` wrapping the target with a throwing `set` trap. -/
inductive FreezeResult where
  | plainValue (target : Obj)
  | proxied (target : Obj)

/-- The `freeze` function as written in the source: its first statement is
`return target;`, so the target is passed back unchanged and the
`invariant` check and the `Proxy` construction below it are unreachable
(the `if (process.env.NODE === 'production') {}` guard has an empty body
and comes after the return). -/
def freeze (target : Obj) : FreezeResult :=
  FreezeResult.plainValue target

/-- The error raised by the `set` trap of the proxy that `freeze` was meant
to return (`invariant(false, { message: ..., code: ErrorConstant.MUTATION })`). -/
structure MutationError where
  code : ErrorConstant
  prop : String
deriving DecidableEq

/-- Semantics of a JS property assignment on the value `freeze` returned: a
plain object is mutated and the assignment succeeds; a proxied object's
`set` trap raises the `MUTATION` invariant error. -/
def setProp : FreezeResult → String → Nat → Except MutationError Obj
  | FreezeResult.plainValue t, k, v => Except.ok (objInsert t k v)
  | FreezeResult.proxied _, k, _ =>
      Except.error { code := ErrorConstant.MUTATION, prop := k }

/-! ### Collaboration envelopes
(src/@remirror/extension-collaboration/src/collaboration-types.ts) -/

/-- The TypeScript types of the fields of the collaboration envelopes. -/
inductive TSFieldTy where
  | numberTy
  | stepArrayTy
  | numberOrStringTy
  | transactionArrayTy
  | plainObjectArrayTy
deriving DecidableEq

/-- The fields of the `Sendable` interface, in declaration order:
`version: number`, `steps: Array<Step<EditorSchema>>`,
`clientID: number | string`, `origins: Transaction[]`. -/
def Sendable : List (String × TSFieldTy) :=
  [("version", TSFieldTy.numberTy),
   ("steps", TSFieldTy.stepArrayTy),
   ("clientID", TSFieldTy.numberOrStringTy),
   ("origins", TSFieldTy.transactionArrayTy)]

/-- The TypeScript `Omit` utility applied to a field list. -/
def omitFields (fields : List (String × TSFieldTy)) (ks : List String) :
    List (String × TSFieldTy) :=
  fields.filter (fun p => !(ks.contains p.1))

/-- The fields of `JSONSendable`, which is declared as
`interface JSONSendable extends Omit<Sendable, 'steps' | 'origins'>`
with the single member `steps: PlainObject[]`. -/
def JSONSendable : List (String × TSFieldTy) :=
  omitFields Sendable ["steps", "origins"] ++ [("steps", TSFieldTy.plainObjectArrayTy)]

/-! ### Command surface typing
(src/packages/@remirror/core/src/extension/extension-types.ts lines 34-47,
src/packages/@remirror/core/src/builtins/decorators.ts lines 129-144, 297-318) -/

/-- The return type of a raw extension command method: either the chainable
`CommandFunction` or `NonChainableCommandFunction`. -/
inductive CommandReturnTy where
  | chainableFn
  | nonChainableFn
deriving DecidableEq

/-- A raw command as it appears in the `RawCommands` record: its parameter
count together with its return type. -/
structure RawCommand where
  arity : Nat
  returnTy : CommandReturnTy
deriving DecidableEq

/-- The shape of a member of the direct command surface
(`MapToUnchainedCommand` sends every raw command to
`CommandShape<Parameters<...>>`, which is callable). -/
structure CommandShape where
  arity : Nat
deriving DecidableEq

/-- Every member of the direct surface is callable. -/
def CommandShape.isCallable (_ : CommandShape) : Bool := true

/-- The type of a member of the chained command mapping: `void` when the
raw command's return type extends `NonChainableCommandFunction`, otherwise
a function of the raw command's parameters. -/
inductive ChainedMemberTy where
  | voidMember
  | chainFn (arity : Nat)
deriving DecidableEq

/-- A `void` member cannot be invoked; a function member can. -/
def ChainedMemberTy.isCallable : ChainedMemberTy → Bool
  | ChainedMemberTy.voidMember => false
  | ChainedMemberTy.chainFn _ => true

/-- `MapToUnchainedCommand`: maps each raw command to the callable
`CommandShape` of its parameters. -/
def MapToUnchainedCommand (c : RawCommand) : CommandShape :=
  { arity := c.arity }

/-- `MapToChainedCommand`: maps a raw command whose return type extends
`NonChainableCommandFunction` to `void`, and every other raw command to a
function taking the same parameters. -/
def MapToChainedCommand (c : RawCommand) : ChainedMemberTy :=
  match c.returnTy with
  | CommandReturnTy.nonChainableFn => ChainedMemberTy.voidMember
  | CommandReturnTy.chainableFn => ChainedMemberTy.chainFn c.arity

/-- The direct command surface built from a raw command record. -/
def directSurface (cmds : List (String × RawCommand)) : List (String × CommandShape) :=
  cmds.map (fun p => (p.1, MapToUnchainedCommand p.2))

/-- The chain command surface built from a raw command record. -/
def chainSurface (cmds : List (String × RawCommand)) : List (String × ChainedMemberTy) :=
  cmds.map (fun p => (p.1, MapToChainedCommand p.2))

/-- The overload resolution of the `command` decorator: options typed
`NonChainableCommandDecoratorOptions` (that is, with `disableChaining: true`)
type the decorated method as `NonChainableCommandFunction`; the chainable
overload types it as `CommandFunction`. -/
def commandDecoratorFunctionTy (disableChaining : Option Bool) : CommandReturnTy :=
  if disableChaining = some true then CommandReturnTy.nonChainableFn
  else CommandReturnTy.chainableFn

/-! ### Decorator options
(src/packages/@remirror/core/src/builtins/decorators.ts lines 170-318) -/

/-- `HelperDecoratorOptions` is an empty interface. -/
structure HelperDecoratorOptions where
deriving DecidableEq

/-- The `shortcut` field of `KeybindingDecoratorOptions`: either a literal
keypress string or a function of the extension's options and the store. -/
inductive ShortcutSpec where
  | literal (shortcut : String)
  | dynamic (f : Nat → String)

/-- `KeybindingDecoratorOptions`: the shortcut to intercept, an optional
activation predicate, an optional priority and the name of the command the
keybinding is attached to. -/
structure KeybindingDecoratorOptions where
  shortcut : ShortcutSpec
  isActive : Option (Nat → Bool) := none
  priority : Option Nat := none
  command : Option String := none

/-- `CommandDecoratorOptions` (the union of the chainable and non-chainable
variants together with the `CommandUiDecoratorOptions` fields); a field that
the caller did not supply is `none`, matching an absent key on the options
object literal. -/
structure CommandDecoratorOptions where
  disableChaining : Option Bool := none
  icon : Option String := none
  label : Option String := none
  description : Option String := none
  shortcut : Option String := none
deriving DecidableEq

/-- The `isEmptyObject` runtime check applied to a `CommandDecoratorOptions`
object literal: true exactly when no key was supplied. -/
def CommandDecoratorOptions.isEmptyObject (o : CommandDecoratorOptions) : Bool :=
  o.disableChaining.isNone && o.icon.isNone && o.label.isNone &&
    o.description.isNone && o.shortcut.isNone

/-! ### Extension units -/

/-- The kind of an extension unit: plain, mark or node
(`isMarkExtension` / `isNodeExtension` discriminate on it). -/
inductive ExtKind where
  | plain
  | mark
  | node
deriving DecidableEq

/-- The opaque type of a helper function stored in the helpers mapping. -/
def HelperFn : Type := Nat → Nat

/-- An extension unit as the helpers builtin and the decorators see it:
its name, kind and schema type, the optional `createHelpers` method result,
the optional decorated-metadata maps, and its methods. A method is looked
up by name and, before binding, still expects the owning instance's data
(`rawMethods name` applied to `instanceData` is `.bind(extension)`). -/
structure Extension where
  name : String
  kind : ExtKind
  type : String
  createHelpers : Option (List (String × HelperFn)) := none
  decoratedHelpers : Option (List (String × HelperDecoratorOptions)) := none
  decoratedCommands : Option (List (String × CommandDecoratorOptions)) := none
  decoratedKeybindings : Option (List (String × KeybindingDecoratorOptions)) := none
  instanceData : Nat := 0
  rawMethods : String → Nat → HelperFn := fun _ _ => fun a => a

/-- `isMarkExtension` as a discriminant check on the kind tag. -/
def isMarkExtension (e : Extension) : Bool := e.kind == ExtKind.mark

/-- `isNodeExtension` as a discriminant check on the kind tag. -/
def isNodeExtension (e : Extension) : Bool := e.kind == ExtKind.node

/-- `(extension as Shape)[helperName].bind(extension)`: the named method
bound to its owning unit instance, so every invocation observes that unit's
instance data. -/
def boundMethod (ext : Extension) (methodName : String) : HelperFn :=
  ext.rawMethods methodName ext.instanceData

/-! ### The three decorators
(src/packages/@remirror/core/src/builtins/decorators.ts lines 65-78,
129-144, 157-168). Each receives the options, the target extension, the
property key and the property descriptor holding the method. -/

/-- The `helper` decorator:
`(target.decoratedHelpers ??= {})[propertyKey] = options`. The descriptor
is ignored (the method is never invoked). -/
def helper (options : HelperDecoratorOptions) (target : Extension)
    (propertyKey : String) (_descriptor : HelperFn) : Extension :=
  { target with
    decoratedHelpers :=
      some (objInsert (target.decoratedHelpers.getD []) propertyKey options) }

/-- The `command` decorator: returns without attaching anything when
`isEmptyObject(options)`; otherwise
`(target.decoratedCommands ??= {})[propertyKey] = options`. The descriptor
is ignored (the method is never invoked). -/
def command (options : CommandDecoratorOptions) (target : Extension)
    (propertyKey : String) (_descriptor : HelperFn) : Extension :=
  if options.isEmptyObject then target
  else
    { target with
      decoratedCommands :=
        some (objInsert (target.decoratedCommands.getD []) propertyKey options) }

/-- The `keyBinding` decorator:
`(target.decoratedKeybindings ??= {})[propertyKey] = options`. The
descriptor is ignored (the method is never invoked). -/
def keyBinding (options : KeybindingDecoratorOptions) (target : Extension)
    (propertyKey : String) (_descriptor : HelperFn) : Extension :=
  { target with
    decoratedKeybindings :=
      some (objInsert (target.decoratedKeybindings.getD []) propertyKey options) }

/-! ### Editor state and active-state checks -/

/-- Attributes of a prosemirror node (`ProsemirrorAttributes`). -/
def Attrs : Type := List (String × String)

/-- The editor state as the active-state checks consume it: the marks
active anywhere in the current selection and the nodes (with their
attributes) active at the current selection. -/
structure EditorState where
  activeMarks : List String
  activeNodes : List (String × Attrs)

/-- Modelled from the spec: `isMarkActive` from `@remirror/core-utils`
(whose source is not part of the excerpt) answers whether the mark type is
active anywhere in the current selection of the given state. -/
def isMarkActive (trState : EditorState) (type : String) : Bool :=
  strSetHas trState.activeMarks type

/-- Whether a node's attributes satisfy the optional attribute constraint. -/
def attrsMatch (nodeAttrs : Attrs) (constraint : Attrs) : Bool :=
  constraint.all (fun p => objLookup nodeAttrs p.1 == some p.2)

/-- Modelled from the spec: `isNodeActive` from `@remirror/core-utils`
(whose source is not part of the excerpt) answers whether a node of the
type, matching the given attributes when supplied, is active at the
current selection of the given state. -/
def isNodeActive (state : EditorState) (type : String) (attrs : Option Attrs) : Bool :=
  state.activeNodes.any (fun p =>
    p.1 == type &&
      (match attrs with
       | none => true
       | some a => attrsMatch p.2 a))

/-- An entry of the `active` mapping built by `HelpersExtension.onView`:
for a node extension a predicate taking optional attribute constraints,
for a mark extension a zero-argument predicate. The `EditorState` argument
of the stored closure is the state the closure obtains from
`this.store.getState()` at the moment it is called. -/
inductive ActiveEntry where
  | nodePred (f : Option Attrs → EditorState → Bool)
  | markPred (f : EditorState → Bool)

/-! ### HelpersExtension.onView
(src/packages/@remirror/core/src/extension/extension-types.ts lines 290-327) -/

/-- The error thrown by `throwIfNameNotUnique`: the error code passed at
the call site together with the duplicate name that was being registered
(the only name-data available at the throw site; the `names` set holds
plain helper-name strings). -/
structure DupError where
  code : ErrorConstant
  name : String
deriving DecidableEq

/-- Modelled from the spec: `throwIfNameNotUnique` from `../helpers` (whose
source is not part of the excerpt) receives a name, a `Set<string>` of
names already seen and an error code; it fails with that code when the
name was already registered and otherwise records the name in the set. -/
def throwIfNameNotUnique (name : String) (set : List String)
    (code : ErrorConstant) : Except DupError (List String) :=
  if strSetHas set name then Except.error { code := code, name := name }
  else Except.ok (set ++ [name])

/-- The per-extension helper object `extensionHelpers` after the loop over
`Object.keys(extension.decoratedHelpers ?? {})`: starting from
`extension.createHelpers?.() ?? {}`, each decorated helper name is
assigned the method bound to the extension instance, replacing an existing
entry of the same name. -/
def mergedHelpers (ext : Extension) : List (String × HelperFn) :=
  (objKeys (ext.decoratedHelpers.getD [])).foldl
    (fun acc k => objInsert acc k (boundMethod ext k))
    (ext.createHelpers.getD [])

/-- The inner loop `for (const [name, helper] of entries(extensionHelpers))`:
each entry first passes `throwIfNameNotUnique` against the shared `names`
set (with code `DUPLICATE_HELPER_NAMES`) and is then assigned into the
shared `helpers` object. -/
def registerHelpers : List String → List (String × HelperFn) →
    List (String × HelperFn) →
    Except DupError (List String × List (String × HelperFn))
  | names, helpers, [] => Except.ok (names, helpers)
  | names, helpers, (n, h) :: rest =>
    match throwIfNameNotUnique n names ErrorConstant.DUPLICATE_HELPER_NAMES with
    | Except.error e => Except.error e
    | Except.ok names1 => registerHelpers names1 (objInsert helpers n h) rest

/-- The accumulating state of the `onView` loop: the `active` object, the
`names` set and the `helpers` object. -/
structure OnViewAcc where
  active : List (String × ActiveEntry)
  names : List String
  helpers : List (String × HelperFn)

/-- One iteration of the `for (const extension of this.store.extensions)`
loop of `HelpersExtension.onView`: node extensions contribute an
attribute-constrained active predicate, mark extensions a zero-argument
active predicate (both reading the state fresh at every call), then the
extension's merged helpers are registered — unless the merged object is
empty, in which case the loop continues with the next extension. -/
def processExt (acc : OnViewAcc) (ext : Extension) : Except DupError OnViewAcc :=
  let active1 :=
    if isNodeExtension ext then
      objInsert acc.active ext.name
        (ActiveEntry.nodePred (fun attrs state => isNodeActive state ext.type attrs))
    else acc.active
  let active2 :=
    if isMarkExtension ext then
      objInsert active1 ext.name
        (ActiveEntry.markPred (fun trState => isMarkActive trState ext.type))
    else active1
  let extensionHelpers := mergedHelpers ext
  if isEmptyObject extensionHelpers then
    Except.ok { active := active2, names := acc.names, helpers := acc.helpers }
  else
    match registerHelpers acc.names acc.helpers extensionHelpers with
    | Except.error e => Except.error e
    | Except.ok (names1, helpers1) =>
        Except.ok { active := active2, names := names1, helpers := helpers1 }

/-- The full loop of `HelpersExtension.onView` over the store's extensions. -/
def onViewLoop : OnViewAcc → List Extension → Except DupError OnViewAcc
  | acc, [] => Except.ok acc
  | acc, ext :: rest =>
    match processExt acc ext with
    | Except.error e => Except.error e
    | Except.ok acc1 => onViewLoop acc1 rest

/-- `HelpersExtension.onView` up to the final store writes: builds the
`active` and `helpers` objects from the store's extension list, starting
from empty objects and an empty `names` set. -/
def onViewCore (extensions : List Extension) : Except DupError OnViewAcc :=
  onViewLoop { active := [], names := [], helpers := [] } extensions

/-! ### The manager store and the lifecycle hooks of HelpersExtension -/

/-- The registered implementation of a string-content handler: the `text`
handler is `this.textToProsemirrorNode.bind(this)`, the `html` handler is
`htmlToProsemirrorNode` from `@remirror/core-utils`. -/
inductive HandlerTag where
  | textHandler
  | htmlHandler
deriving DecidableEq

/-- The slice of the manager store the helpers builtin touches: the
extension list, the string-handler registry, and the `active` / `helpers`
store keys plus the `helpers` extension-store key (absent until set). -/
structure ManagerStore where
  extensions : List Extension
  stringHandlers : List (String × HandlerTag) := []
  activeKey : Option (List (String × ActiveEntry)) := none
  helpersKey : Option (List (String × HelperFn)) := none
  extensionHelpersKey : Option (List (String × HelperFn)) := none

/-- `store.setStringHandler(name, handler)`. -/
def setStringHandler (s : ManagerStore) (name : String) (h : HandlerTag) :
    ManagerStore :=
  { s with stringHandlers := objInsert s.stringHandlers name h }

/-- `HelpersExtension.onCreate`: registers the `text` string handler (the
bound `textToProsemirrorNode`) and then the `html` string handler
(`htmlToProsemirrorNode`); nothing else. -/
def HelpersOnCreate (store : ManagerStore) : ManagerStore :=
  let s1 := setStringHandler store "text" HandlerTag.textHandler
  setStringHandler s1 "html" HandlerTag.htmlHandler

/-- `HelpersExtension.onView` including its final store writes:
`setStoreKey('active', active)`, `setStoreKey('helpers', helpers)` and
`setExtensionStore('helpers', helpers)`. -/
def HelpersOnView (store : ManagerStore) : Except DupError ManagerStore :=
  match onViewCore store.extensions with
  | Except.error e => Except.error e
  | Except.ok r =>
      Except.ok { store with
        activeKey := some r.active
        helpersKey := some r.helpers
        extensionHelpersKey := some r.helpers }

/-! ### String handlers
(HelpersExtension.textToProsemirrorNode, extension-types.ts lines 392-395) -/

/-- The options passed to a string handler: the content string together
with the remaining options (carried opaquely, preserved by the spread
`{ ...options, content }`). -/
structure StringHandlerOptions where
  content : String
  otherOptions : Nat
deriving DecidableEq

/-- A prosemirror node produced by a string handler. -/
inductive PMNode where
  | fromHtml (options : StringHandlerOptions)
deriving DecidableEq

/-- Modelled from the spec: `htmlToProsemirrorNode` from
`@remirror/core-utils` (whose source is not part of the excerpt) converts
a html content string into a prosemirror node. -/
def htmlToProsemirrorNode (options : StringHandlerOptions) : PMNode :=
  PMNode.fromHtml options

/-- `HelpersExtension.textToProsemirrorNode`, parameterized by the html
handler currently registered in `this.store.stringHandlers`: wraps the
content as a pre tag and delegates to that handler with the wrapped
content spread over the original options. -/
def textToProsemirrorNode (htmlHandler : StringHandlerOptions → PMNode)
    (options : StringHandlerOptions) : PMNode :=
  let content := "<pre>" ++ options.content ++ "</pre>"
  htmlHandler { options with content := content }

/-- The result of running one step of a registered handler: the `html`
handler produces a node directly and the `text` handler delegates to the
handler registered under the key `html`, passing the wrapped content. -/
inductive HandlerResult where
  | produced (node : PMNode)
  | delegatesTo (key : String) (options : StringHandlerOptions)
deriving DecidableEq

/-- One step of a registered string handler. -/
def runHandlerTag : HandlerTag → StringHandlerOptions → HandlerResult
  | HandlerTag.htmlHandler, o => HandlerResult.produced (htmlToProsemirrorNode o)
  | HandlerTag.textHandler, o =>
      HandlerResult.delegatesTo "html"
        { o with content := "<pre>" ++ o.content ++ "</pre>" }

/-! ### Lemmas about the JS object embedding -/

theorem objLookup_objInsert_self {α : Type} (l : List (String × α)) (k : String) (v : α) :
    objLookup (objInsert l k v) k = some v := by
  induction l with
  | nil => simp [objInsert, objLookup]
  | cons p rest ih =>
      by_cases h : p.1 = k
      · simp [objInsert, objLookup, h]
      · have hb : (p.1 == k) = false := by simp [h]
        simp [objInsert, objLookup, hb, ih]

theorem objLookup_objInsert_ne {α : Type} (l : List (String × α)) (k k2 : String)
    (v : α) (h : k ≠ k2) : objLookup (objInsert l k v) k2 = objLookup l k2 := by
  induction l with
  | nil =>
      have hb : (k == k2) = false := by simp [h]
      simp [objInsert, objLookup, hb]
  | cons p rest ih =>
      by_cases hp : p.1 = k
      · have hb : (k == k2) = false := by simp [h]
        simp [objInsert, objLookup, hp, hb]
      · have hb : (p.1 == k) = false := by simp [hp]
        simp [objInsert, objLookup, hb, ih]

theorem objHasKey_cons_ne {α : Type} (p : String × α) (rest : List (String × α))
    (k : String) (hb : (p.1 == k) = false) :
    objHasKey (p :: rest) k = objHasKey rest k := by
  simp [objHasKey, objLookup, hb]

theorem objHasKey_iff_mem {α : Type} (l : List (String × α)) (k : String) :
    objHasKey l k = true ↔ k ∈ objKeys l := by
  induction l with
  | nil => simp [objHasKey, objLookup, objKeys]
  | cons p rest ih =>
      by_cases h : p.1 = k
      · simp [objHasKey, objLookup, objKeys, h]
      · have hb : (p.1 == k) = false := by simp [h]
        rw [objHasKey_cons_ne p rest k hb, ih]
        show k ∈ objKeys rest ↔ k ∈ objKeys (p :: rest)
        simp only [objKeys, List.map_cons, List.mem_cons]
        constructor
        · intro hh
          exact Or.inr hh
        · intro hh
          rcases hh with hh | hh
          · exact absurd hh.symm h
          · exact hh

theorem objKeys_objInsert_of_has {α : Type} (l : List (String × α)) (k : String)
    (v : α) (h : objHasKey l k = true) :
    objKeys (objInsert l k v) = objKeys l := by
  induction l with
  | nil => simp [objHasKey, objLookup] at h
  | cons p rest ih =>
      by_cases hp : p.1 = k
      · simp [objInsert, objKeys, hp]
      · have hb : (p.1 == k) = false := by simp [hp]
        rw [objHasKey_cons_ne p rest k hb] at h
        have hins : objInsert (p :: rest) k v = p :: objInsert rest k v := by
          simp [objInsert, hb]
        rw [hins]
        have h2 : objKeys (p :: objInsert rest k v) = p.1 :: objKeys (objInsert rest k v) := rfl
        rw [h2, ih h]
        rfl

theorem objKeys_objInsert_of_not {α : Type} (l : List (String × α)) (k : String)
    (v : α) (h : objHasKey l k = false) :
    objKeys (objInsert l k v) = objKeys l ++ [k] := by
  induction l with
  | nil => simp [objInsert, objKeys]
  | cons p rest ih =>
      by_cases hp : p.1 = k
      · simp [objHasKey, objLookup, hp] at h
      · have hb : (p.1 == k) = false := by simp [hp]
        rw [objHasKey_cons_ne p rest k hb] at h
        have hins : objInsert (p :: rest) k v = p :: objInsert rest k v := by
          simp [objInsert, hb]
        rw [hins]
        have h2 : objKeys (p :: objInsert rest k v) = p.1 :: objKeys (objInsert rest k v) := rfl
        rw [h2, ih h]
        rfl

theorem objKeys_objInsert_nodup {α : Type} (l : List (String × α)) (k : String)
    (v : α) (h : (objKeys l).Nodup) : (objKeys (objInsert l k v)).Nodup := by
  by_cases hk : objHasKey l k = true
  · rw [objKeys_objInsert_of_has l k v hk]
    exact h
  · have hk' : objHasKey l k = false := by
      cases hh : objHasKey l k
      · rfl
      · exact absurd hh hk
    rw [objKeys_objInsert_of_not l k v hk']
    have hnm : k ∉ objKeys l := by
      intro hmem
      exact hk ((objHasKey_iff_mem l k).mpr hmem)
    simp [List.nodup_append, h, hnm]

theorem strSetHas_iff_mem (l : List String) (s : String) :
    strSetHas l s = true ↔ s ∈ l := by
  induction l with
  | nil => simp [strSetHas]
  | cons x xs ih =>
      simp [strSetHas, ih]
      constructor
      · intro h
        rcases h with h | h
        · exact Or.inl h.symm
        · exact Or.inr h
      · intro h
        rcases h with h | h
        · exact Or.inl h.symm
        · exact Or.inr h

theorem strSetHas_append (a b : List String) (s : String) :
    strSetHas (a ++ b) s = (strSetHas a s || strSetHas b s) := by
  induction a with
  | nil => simp [strSetHas]
  | cons x xs ih => simp [strSetHas, ih, Bool.or_assoc]

theorem objHasKey_exists {α : Type} (l : List (String × α)) (k : String)
    (h : objHasKey l k = true) : ∃ v, objLookup l k = some v := by
  unfold objHasKey at h
  cases hl : objLookup l k with
  | none => rw [hl] at h; simp at h
  | some v => exact ⟨v, rfl⟩

theorem isEmptyObject_false_of_hasKey {α : Type} (l : List (String × α)) (k : String)
    (h : objHasKey l k = true) : isEmptyObject l = false := by
  cases l with
  | nil => simp [objHasKey, objLookup] at h
  | cons p rest => simp [isEmptyObject]

theorem foldl_objInsert_lookup_not_mem {α : Type} (f : String → α) (ks : List String)
    (acc : List (String × α)) (n : String) (hn : n ∉ ks) :
    objLookup (ks.foldl (fun a k => objInsert a k (f k)) acc) n = objLookup acc n := by
  induction ks generalizing acc with
  | nil => rfl
  | cons k t ih =>
      have hk : k ≠ n := fun h => hn (h ▸ List.mem_cons_self k t)
      have ht : n ∉ t := fun h => hn (List.mem_cons_of_mem k h)
      simp only [List.foldl_cons]
      rw [ih (objInsert acc k (f k)) ht]
      exact objLookup_objInsert_ne acc k n (f k) hk

theorem foldl_objInsert_lookup_mem {α : Type} (f : String → α) (ks : List String)
    (acc : List (String × α)) (n : String) (hn : n ∈ ks) :
    objLookup (ks.foldl (fun a k => objInsert a k (f k)) acc) n = some (f n) := by
  induction ks generalizing acc with
  | nil => cases hn
  | cons k t ih =>
      simp only [List.foldl_cons]
      by_cases ht : n ∈ t
      · exact ih (objInsert acc k (f k)) ht
      · have hk : n = k := by
          rcases List.mem_cons.mp hn with h | h
          · exact h
          · exact absurd h ht
        subst hk
        rw [foldl_objInsert_lookup_not_mem f t (objInsert acc n (f n)) n ht]
        exact objLookup_objInsert_self acc n (f n)

theorem foldl_objInsert_keys_nodup {α : Type} (f : String → α) (ks : List String)
    (acc : List (String × α)) (h : (objKeys acc).Nodup) :
    (objKeys (ks.foldl (fun a k => objInsert a k (f k)) acc)).Nodup := by
  induction ks generalizing acc with
  | nil => exact h
  | cons k t ih =>
      simp only [List.foldl_cons]
      exact ih (objInsert acc k (f k)) (objKeys_objInsert_nodup acc k (f k) h)

/-! ### Lemmas about mergedHelpers -/

theorem mergedHelpers_lookup_decorated (ext : Extension) (n : String)
    (h : objHasKey (ext.decoratedHelpers.getD []) n = true) :
    objLookup (mergedHelpers ext) n = some (boundMethod ext n) := by
  unfold mergedHelpers
  exact foldl_objInsert_lookup_mem (boundMethod ext)
    (objKeys (ext.decoratedHelpers.getD [])) (ext.createHelpers.getD []) n
    ((objHasKey_iff_mem _ n).mp h)

theorem mergedHelpers_lookup_not_decorated (ext : Extension) (n : String)
    (h : objHasKey (ext.decoratedHelpers.getD []) n = false) :
    objLookup (mergedHelpers ext) n = objLookup (ext.createHelpers.getD []) n := by
  unfold mergedHelpers
  refine foldl_objInsert_lookup_not_mem (boundMethod ext)
    (objKeys (ext.decoratedHelpers.getD [])) (ext.createHelpers.getD []) n ?_
  intro hmem
  have := (objHasKey_iff_mem (ext.decoratedHelpers.getD []) n).mpr hmem
  rw [h] at this
  cases this

theorem mergedHelpers_keys_nodup (ext : Extension)
    (hc : (objKeys (ext.createHelpers.getD [])).Nodup) :
    (objKeys (mergedHelpers ext)).Nodup := by
  unfold mergedHelpers
  exact foldl_objInsert_keys_nodup (boundMethod ext)
    (objKeys (ext.decoratedHelpers.getD [])) (ext.createHelpers.getD []) hc

/-! ### Lemmas about registerHelpers -/

theorem registerHelpers_ok (hs : List (String × HelperFn)) :
    ∀ (names : List String) (helpers : List (String × HelperFn))
      (ns : List String) (hb : List (String × HelperFn)),
    registerHelpers names helpers hs = Except.ok (ns, hb) →
    ns = names ++ objKeys hs ∧
    (∀ k ∈ objKeys hs, strSetHas names k = false) ∧
    (objKeys hs).Nodup := by
  induction hs with
  | nil =>
      intro names helpers ns hb h
      simp [registerHelpers] at h
      refine ⟨?_, ?_, ?_⟩
      · rw [← h.1]
        simp [objKeys]
      · intro k hk
        simp [objKeys] at hk
      · simp [objKeys]
  | cons p rest ih =>
      intro names helpers ns hb h
      unfold registerHelpers at h
      unfold throwIfNameNotUnique at h
      by_cases hmem : strSetHas names p.1 = true
      · rw [hmem] at h
        simp at h
      · have hf : strSetHas names p.1 = false := by
          cases hh : strSetHas names p.1
          · rfl
          · exact absurd hh hmem
        rw [hf] at h
        simp at h
        obtain ⟨h1, h2, h3⟩ := ih (names ++ [p.1]) (objInsert helpers p.1 p.2) ns hb h
        refine ⟨?_, ?_, ?_⟩
        · rw [h1]
          simp [objKeys]
        · intro k hk
          have hk' : k = p.1 ∨ k ∈ objKeys rest := by
            simpa [objKeys] using hk
          rcases hk' with hk' | hk'
          · rw [hk']
            exact hf
          · have := h2 k hk'
            rw [strSetHas_append] at this
            exact (Bool.or_eq_false_iff.mp this).1
        · have hp1 : p.1 ∉ objKeys rest := by
            intro hmem2
            have := h2 p.1 hmem2
            rw [strSetHas_append] at this
            have := (Bool.or_eq_false_iff.mp this).2
            simp [strSetHas] at this
          simp only [objKeys, List.map_cons, List.nodup_cons]
          exact ⟨hp1, h3⟩

theorem registerHelpers_error_code (hs : List (String × HelperFn)) :
    ∀ (names : List String) (helpers : List (String × HelperFn)) (e : DupError),
    registerHelpers names helpers hs = Except.error e →
    e.code = ErrorConstant.DUPLICATE_HELPER_NAMES := by
  induction hs with
  | nil =>
      intro names helpers e h
      simp [registerHelpers] at h
  | cons p rest ih =>
      intro names helpers e h
      unfold registerHelpers at h
      unfold throwIfNameNotUnique at h
      by_cases hmem : strSetHas names p.1 = true
      · rw [hmem] at h
        simp at h
        rw [← h]
      · have hf : strSetHas names p.1 = false := by
          cases hh : strSetHas names p.1
          · rfl
          · exact absurd hh hmem
        rw [hf] at h
        simp at h
        exact ih (names ++ [p.1]) (objInsert helpers p.1 p.2) e h

theorem registerHelpers_lookup_preserve (hs : List (String × HelperFn)) :
    ∀ (names : List String) (helpers : List (String × HelperFn))
      (ns : List String) (hb : List (String × HelperFn)) (n : String),
    registerHelpers names helpers hs = Except.ok (ns, hb) →
    n ∉ objKeys hs →
    objLookup hb n = objLookup helpers n := by
  induction hs with
  | nil =>
      intro names helpers ns hb n h _
      simp [registerHelpers] at h
      rw [← h.2]
  | cons p rest ih =>
      intro names helpers ns hb n h hn
      unfold registerHelpers at h
      unfold throwIfNameNotUnique at h
      by_cases hmem : strSetHas names p.1 = true
      · rw [hmem] at h
        simp at h
      · have hf : strSetHas names p.1 = false := by
          cases hh : strSetHas names p.1
          · rfl
          · exact absurd hh hmem
        rw [hf] at h
        simp at h
        have hkp : p.1 ≠ n := by
          intro hk
          exact hn (hk ▸ List.mem_cons_self p.1 (objKeys rest))
        have hrest : n ∉ objKeys rest := fun hk => hn (List.mem_cons_of_mem _ hk)
        rw [ih (names ++ [p.1]) (objInsert helpers p.1 p.2) ns hb n h hrest]
        exact objLookup_objInsert_ne helpers p.1 n p.2 hkp

theorem registerHelpers_lookup_new (hs : List (String × HelperFn)) :
    ∀ (names : List String) (helpers : List (String × HelperFn))
      (ns : List String) (hb : List (String × HelperFn)) (n : String) (v : HelperFn),
    registerHelpers names helpers hs = Except.ok (ns, hb) →
    objLookup hs n = some v →
    objLookup hb n = some v := by
  induction hs with
  | nil =>
      intro names helpers ns hb n v _ hl
      simp [objLookup] at hl
  | cons p rest ih =>
      intro names helpers ns hb n v h hl
      unfold registerHelpers at h
      unfold throwIfNameNotUnique at h
      by_cases hmem : strSetHas names p.1 = true
      · rw [hmem] at h
        simp at h
      · have hf : strSetHas names p.1 = false := by
          cases hh : strSetHas names p.1
          · rfl
          · exact absurd hh hmem
        rw [hf] at h
        simp at h
        by_cases hpn : p.1 = n
        · have hvv : v = p.2 := by
            unfold objLookup at hl
            simp [hpn] at hl
            exact hl.symm
          have hnrest : n ∉ objKeys rest := by
            obtain ⟨_, hfresh, hnd⟩ :=
              registerHelpers_ok rest (names ++ [p.1]) (objInsert helpers p.1 p.2) ns hb h
            intro hmem2
            have := hfresh n hmem2
            rw [strSetHas_append] at this
            have h2 := (Bool.or_eq_false_iff.mp this).2
            rw [← hpn] at h2
            simp [strSetHas] at h2
          rw [registerHelpers_lookup_preserve rest (names ++ [p.1])
            (objInsert helpers p.1 p.2) ns hb n h hnrest]
          rw [hvv, ← hpn]
          exact objLookup_objInsert_self helpers p.1 p.2
        · have hl2 : objLookup rest n = some v := by
            unfold objLookup at hl
            have hb2 : (p.1 == n) = false := by simp [hpn]
            rw [hb2] at hl
            simpa using hl
          exact ih (names ++ [p.1]) (objInsert helpers p.1 p.2) ns hb n v h hl2

theorem registerHelpers_complete (hs : List (String × HelperFn)) :
    ∀ (names : List String) (helpers : List (String × HelperFn)),
    (objKeys hs).Nodup →
    (∀ k ∈ objKeys hs, strSetHas names k = false) →
    ∃ ns hb, registerHelpers names helpers hs = Except.ok (ns, hb) := by
  induction hs with
  | nil =>
      intro names helpers _ _
      exact ⟨names, helpers, rfl⟩
  | cons p rest ih =>
      intro names helpers hnd hfresh
      have hp : strSetHas names p.1 = false :=
        hfresh p.1 (List.mem_cons_self p.1 (objKeys rest))
      simp only [objKeys, List.map_cons, List.nodup_cons] at hnd
      have hfresh2 : ∀ k ∈ objKeys rest, strSetHas (names ++ [p.1]) k = false := by
        intro k hk
        rw [strSetHas_append]
        have h1 : strSetHas names k = false := hfresh k (List.mem_cons_of_mem _ hk)
        have h2 : strSetHas [p.1] k = false := by
          have : p.1 ≠ k := fun hh => hnd.1 (hh ▸ hk)
          simp [strSetHas, this]
        rw [h1, h2]
        rfl
      obtain ⟨ns, hb, hreg⟩ := ih (names ++ [p.1]) (objInsert helpers p.1 p.2) hnd.2 hfresh2
      refine ⟨ns, hb, ?_⟩
      unfold registerHelpers throwIfNameNotUnique
      rw [hp]
      simpa using hreg

/-! ### Lemmas about processExt -/

theorem processExt_ok_names (acc acc1 : OnViewAcc) (ext : Extension)
    (h : processExt acc ext = Except.ok acc1) :
    acc1.names = acc.names ++ objKeys (mergedHelpers ext) ∧
    (∀ k ∈ objKeys (mergedHelpers ext), strSetHas acc.names k = false) := by
  simp only [processExt] at h
  split at h
  · next he =>
      have hnil : mergedHelpers ext = [] := by
        cases hm : mergedHelpers ext with
        | nil => rfl
        | cons q t => rw [hm] at he; simp [isEmptyObject] at he
      cases h
      constructor
      · simp [hnil, objKeys]
      · intro k hk
        rw [hnil] at hk
        simp [objKeys] at hk
  · next he =>
      split at h
      · cases h
      · next ns hb heq =>
          cases h
          obtain ⟨h1, h2, _⟩ := registerHelpers_ok (mergedHelpers ext)
            acc.names acc.helpers ns hb heq
          exact ⟨h1, h2⟩

theorem processExt_error_code (acc : OnViewAcc) (ext : Extension) (e : DupError)
    (h : processExt acc ext = Except.error e) :
    e.code = ErrorConstant.DUPLICATE_HELPER_NAMES := by
  simp only [processExt] at h
  split at h
  · cases h
  · split at h
    · next e2 heq =>
        cases h
        exact registerHelpers_error_code (mergedHelpers ext) acc.names acc.helpers e heq
    · cases h

theorem processExt_names_mono (acc acc1 : OnViewAcc) (ext : Extension) (n : String)
    (h : processExt acc ext = Except.ok acc1) (hn : strSetHas acc.names n = true) :
    strSetHas acc1.names n = true := by
  obtain ⟨h1, _⟩ := processExt_ok_names acc acc1 ext h
  rw [h1, strSetHas_append, hn]
  rfl

theorem processExt_helpers_lookup_preserve (acc acc1 : OnViewAcc) (ext : Extension)
    (n : String) (h : processExt acc ext = Except.ok acc1)
    (hn : strSetHas acc.names n = true) :
    objLookup acc1.helpers n = objLookup acc.helpers n := by
  obtain ⟨_, hfresh⟩ := processExt_ok_names acc acc1 ext h
  have hnot : n ∉ objKeys (mergedHelpers ext) := by
    intro hmem
    rw [hfresh n hmem] at hn
    cases hn
  simp only [processExt] at h
  split at h
  · cases h
    rfl
  · split at h
    · cases h
    · next ns hb heq =>
        cases h
        exact registerHelpers_lookup_preserve (mergedHelpers ext)
          acc.names acc.helpers ns hb n heq hnot

theorem processExt_helpers_lookup_new (acc acc1 : OnViewAcc) (ext : Extension)
    (n : String) (v : HelperFn) (h : processExt acc ext = Except.ok acc1)
    (hv : objLookup (mergedHelpers ext) n = some v) :
    objLookup acc1.helpers n = some v := by
  have hkey : objHasKey (mergedHelpers ext) n = true := by
    unfold objHasKey
    rw [hv]
    rfl
  have hne : isEmptyObject (mergedHelpers ext) = false :=
    isEmptyObject_false_of_hasKey (mergedHelpers ext) n hkey
  simp only [processExt] at h
  split at h
  · next he => rw [hne] at he; cases he
  · split at h
    · cases h
    · next ns hb heq =>
        cases h
        exact registerHelpers_lookup_new (mergedHelpers ext)
          acc.names acc.helpers ns hb n v heq hv

theorem processExt_active_ok (acc acc1 : OnViewAcc) (ext : Extension)
    (h : processExt acc ext = Except.ok acc1) :
    acc1.active =
      (let active1 :=
        if isNodeExtension ext then
          objInsert acc.active ext.name
            (ActiveEntry.nodePred (fun attrs state => isNodeActive state ext.type attrs))
        else acc.active
      if isMarkExtension ext then
        objInsert active1 ext.name
          (ActiveEntry.markPred (fun trState => isMarkActive trState ext.type))
      else active1) := by
  simp only [processExt] at h
  split at h
  · cases h
    rfl
  · split at h
    · cases h
    · cases h
      rfl

theorem processExt_active_mark (acc acc1 : OnViewAcc) (ext : Extension)
    (hk : ext.kind = ExtKind.mark) (h : processExt acc ext = Except.ok acc1) :
    objLookup acc1.active ext.name =
      some (ActiveEntry.markPred (fun trState => isMarkActive trState ext.type)) := by
  have ha := processExt_active_ok acc acc1 ext h
  have hnode : isNodeExtension ext = false := by simp [isNodeExtension, hk]
  have hmark : isMarkExtension ext = true := by simp [isMarkExtension, hk]
  rw [ha]
  simp only [hnode, hmark, Bool.false_eq_true, if_false, if_true]
  exact objLookup_objInsert_self acc.active ext.name _

theorem processExt_active_node (acc acc1 : OnViewAcc) (ext : Extension)
    (hk : ext.kind = ExtKind.node) (h : processExt acc ext = Except.ok acc1) :
    objLookup acc1.active ext.name =
      some (ActiveEntry.nodePred (fun attrs state => isNodeActive state ext.type attrs)) := by
  have ha := processExt_active_ok acc acc1 ext h
  have hnode : isNodeExtension ext = true := by simp [isNodeExtension, hk]
  have hmark : isMarkExtension ext = false := by simp [isMarkExtension, hk]
  rw [ha]
  simp only [hnode, hmark, Bool.false_eq_true, if_false, if_true]
  exact objLookup_objInsert_self acc.active ext.name _

theorem processExt_active_preserve (acc acc1 : OnViewAcc) (ext : Extension)
    (n : String) (hne : ext.name ≠ n) (h : processExt acc ext = Except.ok acc1) :
    objLookup acc1.active n = objLookup acc.active n := by
  have ha := processExt_active_ok acc acc1 ext h
  rw [ha]
  by_cases h1 : isNodeExtension ext = true
  · by_cases h2 : isMarkExtension ext = true
    · simp only [h1, h2, if_true]
      rw [objLookup_objInsert_ne _ ext.name n _ hne,
        objLookup_objInsert_ne _ ext.name n _ hne]
    · simp only [h1, Bool.not_eq_true] at *
      simp only [h1, h2, Bool.false_eq_true, if_false, if_true]
      rw [objLookup_objInsert_ne _ ext.name n _ hne]
  · by_cases h2 : isMarkExtension ext = true
    · simp only [Bool.not_eq_true] at h1
      simp only [h1, h2, Bool.false_eq_true, if_false, if_true]
      rw [objLookup_objInsert_ne _ ext.name n _ hne]
    · simp only [Bool.not_eq_true] at h1 h2
      simp only [h1, h2, Bool.false_eq_true, if_false]

/-! ### Lemmas about onViewLoop -/

theorem onViewLoop_ok_preserve (exts : List Extension) :
    ∀ (acc r : OnViewAcc) (n : String),
    onViewLoop acc exts = Except.ok r → strSetHas acc.names n = true →
    objLookup r.helpers n = objLookup acc.helpers n := by
  induction exts with
  | nil =>
      intro acc r n h _
      cases h
      rfl
  | cons e t ih =>
      intro acc r n h hn
      unfold onViewLoop at h
      cases hpe : processExt acc e with
      | error e2 => rw [hpe] at h; cases h
      | ok acc1 =>
          rw [hpe] at h
          have hn1 := processExt_names_mono acc acc1 e n hpe hn
          rw [ih acc1 r n h hn1]
          exact processExt_helpers_lookup_preserve acc acc1 e n hpe hn

theorem onViewLoop_fresh (exts : List Extension) :
    ∀ (acc r : OnViewAcc) (ext : Extension) (n : String),
    onViewLoop acc exts = Except.ok r → ext ∈ exts →
    objHasKey (mergedHelpers ext) n = true → strSetHas acc.names n = false := by
  induction exts with
  | nil =>
      intro acc r ext n _ hmem
      cases hmem
  | cons e t ih =>
      intro acc r ext n h hmem hkey
      unfold onViewLoop at h
      cases hpe : processExt acc e with
      | error e2 => rw [hpe] at h; cases h
      | ok acc1 =>
          rw [hpe] at h
          rcases List.mem_cons.mp hmem with hmem | hmem
          · subst hmem
            obtain ⟨_, hfresh⟩ := processExt_ok_names acc acc1 ext hpe
            exact hfresh n ((objHasKey_iff_mem _ n).mp hkey)
          · have hfresh1 := ih acc1 r ext n h hmem hkey
            obtain ⟨h1, _⟩ := processExt_ok_names acc acc1 e hpe
            rw [h1, strSetHas_append] at hfresh1
            exact (Bool.or_eq_false_iff.mp hfresh1).1

theorem onViewLoop_error_code (exts : List Extension) :
    ∀ (acc : OnViewAcc) (e : DupError),
    onViewLoop acc exts = Except.error e →
    e.code = ErrorConstant.DUPLICATE_HELPER_NAMES := by
  induction exts with
  | nil =>
      intro acc e h
      cases h
  | cons x t ih =>
      intro acc e h
      unfold onViewLoop at h
      cases hpe : processExt acc x with
      | error e2 =>
          rw [hpe] at h
          cases h
          exact processExt_error_code acc x e hpe
      | ok acc1 =>
          rw [hpe] at h
          exact ih acc1 e h

theorem onViewLoop_decorated_lookup (exts : List Extension) :
    ∀ (acc r : OnViewAcc) (ext : Extension) (n : String),
    onViewLoop acc exts = Except.ok r → ext ∈ exts →
    objHasKey (ext.decoratedHelpers.getD []) n = true →
    objLookup r.helpers n = some (boundMethod ext n) := by
  induction exts with
  | nil =>
      intro acc r ext n _ hmem
      cases hmem
  | cons e t ih =>
      intro acc r ext n h hmem hdec
      unfold onViewLoop at h
      cases hpe : processExt acc e with
      | error e2 => rw [hpe] at h; cases h
      | ok acc1 =>
          rw [hpe] at h
          rcases List.mem_cons.mp hmem with hmem | hmem
          · subst hmem
            have hv := mergedHelpers_lookup_decorated ext n hdec
            have hlook := processExt_helpers_lookup_new acc acc1 ext n
              (boundMethod ext n) hpe hv
            have hkey : objHasKey (mergedHelpers ext) n = true := by
              unfold objHasKey
              rw [hv]
              rfl
            obtain ⟨h1, _⟩ := processExt_ok_names acc acc1 ext hpe
            have hn1 : strSetHas acc1.names n = true := by
              rw [h1, strSetHas_append]
              have : strSetHas (objKeys (mergedHelpers ext)) n = true :=
                (strSetHas_iff_mem _ n).mpr ((objHasKey_iff_mem _ n).mp hkey)
              rw [this]
              simp
            rw [onViewLoop_ok_preserve t acc1 r n h hn1]
            exact hlook
          · exact ih acc1 r ext n h hmem hdec

theorem onViewLoop_active_preserve (exts : List Extension) :
    ∀ (acc r : OnViewAcc) (n : String),
    onViewLoop acc exts = Except.ok r → (∀ b ∈ exts, b.name ≠ n) →
    objLookup r.active n = objLookup acc.active n := by
  induction exts with
  | nil =>
      intro acc r n h _
      cases h
      rfl
  | cons e t ih =>
      intro acc r n h hne
      unfold onViewLoop at h
      cases hpe : processExt acc e with
      | error e2 => rw [hpe] at h; cases h
      | ok acc1 =>
          rw [hpe] at h
          rw [ih acc1 r n h (fun b hb => hne b (List.mem_cons_of_mem e hb))]
          exact processExt_active_preserve acc acc1 e n
            (hne e (List.mem_cons_self e t)) hpe

theorem onViewLoop_active_mark (exts : List Extension) :
    ∀ (acc r : OnViewAcc) (ext : Extension),
    onViewLoop acc exts = Except.ok r → ext ∈ exts →
    (exts.map Extension.name).Nodup → ext.kind = ExtKind.mark →
    objLookup r.active ext.name =
      some (ActiveEntry.markPred (fun trState => isMarkActive trState ext.type)) := by
  induction exts with
  | nil =>
      intro acc r ext _ hmem
      cases hmem
  | cons e t ih =>
      intro acc r ext h hmem hnd hk
      unfold onViewLoop at h
      cases hpe : processExt acc e with
      | error e2 => rw [hpe] at h; cases h
      | ok acc1 =>
          rw [hpe] at h
          simp only [List.map_cons, List.nodup_cons] at hnd
          rcases List.mem_cons.mp hmem with hmem | hmem
          · subst hmem
            have hne : ∀ b ∈ t, b.name ≠ ext.name := by
              intro b hb hbe
              exact hnd.1 (hbe ▸ List.mem_map_of_mem Extension.name hb)
            rw [onViewLoop_active_preserve t acc1 r ext.name h hne]
            exact processExt_active_mark acc acc1 ext hk hpe
          · exact ih acc1 r ext h hmem hnd.2 hk

theorem onViewLoop_active_node (exts : List Extension) :
    ∀ (acc r : OnViewAcc) (ext : Extension),
    onViewLoop acc exts = Except.ok r → ext ∈ exts →
    (exts.map Extension.name).Nodup → ext.kind = ExtKind.node →
    objLookup r.active ext.name =
      some (ActiveEntry.nodePred (fun attrs state => isNodeActive state ext.type attrs)) := by
  induction exts with
  | nil =>
      intro acc r ext _ hmem
      cases hmem
  | cons e t ih =>
      intro acc r ext h hmem hnd hk
      unfold onViewLoop at h
      cases hpe : processExt acc e with
      | error e2 => rw [hpe] at h; cases h
      | ok acc1 =>
          rw [hpe] at h
          simp only [List.map_cons, List.nodup_cons] at hnd
          rcases List.mem_cons.mp hmem with hmem | hmem
          · subst hmem
            have hne : ∀ b ∈ t, b.name ≠ ext.name := by
              intro b hb hbe
              exact hnd.1 (hbe ▸ List.mem_map_of_mem Extension.name hb)
            rw [onViewLoop_active_preserve t acc1 r ext.name h hne]
            exact processExt_active_node acc acc1 ext hk hpe
          · exact ih acc1 r ext h hmem hnd.2 hk

theorem onViewLoop_ok_disjoint (exts : List Extension) :
    ∀ (acc r : OnViewAcc),
    onViewLoop acc exts = Except.ok r →
    ∀ (i j : Nat) (hi : i < exts.length) (hj : j < exts.length), i < j →
    ∀ n, objHasKey (mergedHelpers (exts.get ⟨i, hi⟩)) n = true →
    objHasKey (mergedHelpers (exts.get ⟨j, hj⟩)) n = true → False := by
  induction exts with
  | nil =>
      intro acc r _ i j hi
      intro hj
      cases hi
  | cons e t ih =>
      intro acc r h i j hi hj hij n h1 h2
      unfold onViewLoop at h
      cases hpe : processExt acc e with
      | error e2 => rw [hpe] at h; cases h
      | ok acc1 =>
          rw [hpe] at h
          cases i with
          | zero =>
              cases j with
              | zero => cases hij
              | succ j2 =>
                  have hj2 : j2 < t.length := Nat.lt_of_succ_lt_succ hj
                  have hget : (e :: t).get ⟨j2 + 1, hj⟩ = t.get ⟨j2, hj2⟩ := rfl
                  rw [hget] at h2
                  have hmem : t.get ⟨j2, hj2⟩ ∈ t := List.get_mem t j2 hj2
                  have hfresh := onViewLoop_fresh t acc1 r _ n h hmem h2
                  have hkey : strSetHas acc1.names n = true := by
                    obtain ⟨hn1, _⟩ := processExt_ok_names acc acc1 e hpe
                    rw [hn1, strSetHas_append]
                    have hget0 : (e :: t).get ⟨0, hi⟩ = e := rfl
                    rw [hget0] at h1
                    have : strSetHas (objKeys (mergedHelpers e)) n = true :=
                      (strSetHas_iff_mem _ n).mpr ((objHasKey_iff_mem _ n).mp h1)
                    rw [this]
                    simp
                  rw [hfresh] at hkey
                  cases hkey
          | succ i2 =>
              cases j with
              | zero => cases hij
              | succ j2 =>
                  have hi2 : i2 < t.length := Nat.lt_of_succ_lt_succ hi
                  have hj2 : j2 < t.length := Nat.lt_of_succ_lt_succ hj
                  have hij2 : i2 < j2 := Nat.lt_of_succ_lt_succ hij
                  exact ih acc1 r h i2 j2 hi2 hj2 hij2 n h1 h2

/-! ### Concrete fixtures used by witnesses and counterexamples -/

/-- A trivial helper function. -/
def idFn : HelperFn := fun a => a

/-- A plain unit named alpha whose `createHelpers` declares `getInfo`. -/
def extAlpha : Extension :=
  { name := "alpha", kind := ExtKind.plain, type := "alpha",
    createHelpers := some [("getInfo", idFn)] }

/-- A plain unit named beta whose `createHelpers` also declares `getInfo`. -/
def extBeta : Extension :=
  { name := "beta", kind := ExtKind.plain, type := "beta",
    createHelpers := some [("getInfo", idFn)] }

/-- A plain unit with a decorated helper method `readData` that reads the
owning instance's data. -/
def extGamma : Extension :=
  { name := "gamma", kind := ExtKind.plain, type := "gamma",
    decoratedHelpers := some [("readData", {})],
    instanceData := 7,
    rawMethods := fun _ self => fun a => self + a }

/-- The `onView` result for the singleton list holding `extGamma`. -/
def gammaResult : OnViewAcc :=
  { active := [], names := ["readData"],
    helpers := [("readData", boundMethod extGamma "readData")] }

/-- A doubling helper function. -/
def doubleFn : HelperFn := fun a => a + a

/-- A unit declaring the same helper name both in `createHelpers` and as a
decorated helper method. -/
def extDelta : Extension :=
  { name := "delta", kind := ExtKind.plain, type := "delta",
    createHelpers := some [("getData", doubleFn)],
    decoratedHelpers := some [("getData", {})],
    instanceData := 3,
    rawMethods := fun _ self => fun a => self * a }

/-- A mark unit named bold. -/
def extBold : Extension :=
  { name := "bold", kind := ExtKind.mark, type := "bold" }

/-- A node unit named heading. -/
def extHeading : Extension :=
  { name := "heading", kind := ExtKind.node, type := "heading" }

/-- The `onView` result for the list holding `extBold` and `extHeading`. -/
def markNodeActiveResult : OnViewAcc :=
  { active :=
      [("bold", ActiveEntry.markPred (fun trState => isMarkActive trState "bold")),
       ("heading",
        ActiveEntry.nodePred (fun attrs state => isNodeActive state "heading" attrs))],
    names := [], helpers := [] }

/-- Builds the successful `processExt` step from a successful inner
registration. -/
theorem processExt_of_register (acc : OnViewAcc) (ext : Extension)
    (ns : List String) (hb : List (String × HelperFn))
    (hne : isEmptyObject (mergedHelpers ext) = false)
    (hreg : registerHelpers acc.names acc.helpers (mergedHelpers ext) =
      Except.ok (ns, hb)) :
    ∃ acc1, processExt acc ext = Except.ok acc1 ∧
      acc1.names = ns ∧ acc1.helpers = hb := by
  simp only [processExt]
  rw [hne, hreg]
  exact ⟨_, rfl, rfl, rfl⟩

/-! ### Claim theorems -/

/-- C1 (amended): for every extension list in which two distinct units
(distinct positions in the list) contribute a helper of the same name —
through a `createHelpers` entry or a decorated helper method — the
view-attach pass of the helpers unit fails with the
`DUPLICATE_HELPER_NAMES` error. The failure does not identify the
contributing unit names; the companion counterexample shows its payload is
the duplicate helper name alone. -/
theorem onView_duplicate_helper_fails (exts : List Extension) (n : String)
    (i j : Nat) (hi : i < exts.length) (hj : j < exts.length) (hij : i ≠ j)
    (h1 : objHasKey (mergedHelpers (exts.get ⟨i, hi⟩)) n = true)
    (h2 : objHasKey (mergedHelpers (exts.get ⟨j, hj⟩)) n = true) :
    ∃ e, onViewCore exts = Except.error e ∧
      e.code = ErrorConstant.DUPLICATE_HELPER_NAMES := by
  cases h : onViewCore exts with
  | error e => exact ⟨e, rfl, onViewLoop_error_code exts _ e h⟩
  | ok r =>
      exfalso
      rcases Nat.lt_or_ge i j with hlt | hge
      · exact onViewLoop_ok_disjoint exts _ r h i j hi hj hlt n h1 h2
      · have hlt : j < i := Nat.lt_of_le_of_ne hge (fun hh => hij hh.symm)
        exact onViewLoop_ok_disjoint exts _ r h j i hj hi hlt n h2 h1

/-- Witness for the C1 theorem: two concrete units alpha and beta both
declaring the helper `getInfo`. -/
theorem onView_duplicate_helper_fails_witness :
    ∃ e, onViewCore [extAlpha, extBeta] = Except.error e ∧
      e.code = ErrorConstant.DUPLICATE_HELPER_NAMES :=
  onView_duplicate_helper_fails [extAlpha, extBeta] "getInfo" 0 1
    (by decide) (by decide) (by decide) rfl rfl

/-- C1 counterexample to the claim as stated: for the units alpha and beta
both declaring helper `getInfo`, the failure value carries only the error
code and the duplicate helper name `getInfo` (the data passed to
`throwIfNameNotUnique`), which differs from both contributing unit names,
so the failure does not identify the unit names. -/
theorem onView_duplicate_helper_error_content :
    onViewCore [extAlpha, extBeta] =
      Except.error { code := ErrorConstant.DUPLICATE_HELPER_NAMES, name := "getInfo" } ∧
    ("getInfo" == "alpha") = false ∧ ("getInfo" == "beta") = false :=
  ⟨rfl, rfl, rfl⟩

/-- C2: in the assembled active mapping every mark-kind unit's name maps to
a zero-argument predicate and every node-kind unit's name maps to a
predicate taking optional attribute constraints; each such predicate,
applied to the state obtained from the store at the moment of the call,
evaluates `isMarkActive` / `isNodeActive` on that very state, so no value
is cached between calls. -/
theorem active_mapping_predicates (exts : List Extension) (ext : Extension)
    (r : OnViewAcc) (hnd : (exts.map Extension.name).Nodup) (hmem : ext ∈ exts)
    (hok : onViewCore exts = Except.ok r) :
    (ext.kind = ExtKind.mark →
      ∃ f, objLookup r.active ext.name = some (ActiveEntry.markPred f) ∧
        ∀ trState, f trState = isMarkActive trState ext.type) ∧
    (ext.kind = ExtKind.node →
      ∃ g, objLookup r.active ext.name = some (ActiveEntry.nodePred g) ∧
        ∀ attrs state, g attrs state = isNodeActive state ext.type attrs) := by
  constructor
  · intro hk
    exact ⟨_, onViewLoop_active_mark exts _ r ext hok hmem hnd hk, fun s => rfl⟩
  · intro hk
    exact ⟨_, onViewLoop_active_node exts _ r ext hok hmem hnd hk, fun attrs s => rfl⟩

/-- Witness for the C2 theorem at the concrete mark unit bold in a list
together with the node unit heading. -/
theorem active_mapping_predicates_witness :
    (extBold.kind = ExtKind.mark →
      ∃ f, objLookup markNodeActiveResult.active extBold.name =
        some (ActiveEntry.markPred f) ∧
        ∀ trState, f trState = isMarkActive trState extBold.type) ∧
    (extBold.kind = ExtKind.node →
      ∃ g, objLookup markNodeActiveResult.active extBold.name =
        some (ActiveEntry.nodePred g) ∧
        ∀ attrs state, g attrs state = isNodeActive state extBold.type attrs) :=
  active_mapping_predicates [extBold, extHeading] extBold markNodeActiveResult
    (by decide) (List.mem_cons_self extBold [extHeading]) rfl

/-- C9: for every unit in the list and every method name in its
`decoratedHelpers` map, a successful view-attach pass stores under that
name the unit's method bound to the owning unit instance, and invoking the
stored helper observes the owning unit's instance data. -/
theorem helpers_mapping_binds_owner (exts : List Extension) (ext : Extension)
    (n : String) (r : OnViewAcc) (hmem : ext ∈ exts)
    (hdec : objHasKey (ext.decoratedHelpers.getD []) n = true)
    (hok : onViewCore exts = Except.ok r) :
    objLookup r.helpers n = some (boundMethod ext n) ∧
    ∀ a, boundMethod ext n a = ext.rawMethods n ext.instanceData a :=
  ⟨onViewLoop_decorated_lookup exts _ r ext n hok hmem hdec, fun _ => rfl⟩

/-- Witness for the C9 theorem at the concrete unit gamma with decorated
helper `readData`. -/
theorem helpers_mapping_binds_owner_witness :
    objLookup gammaResult.helpers "readData" = some (boundMethod extGamma "readData") ∧
    ∀ a, boundMethod extGamma "readData" a =
      extGamma.rawMethods "readData" extGamma.instanceData a :=
  helpers_mapping_binds_owner [extGamma] extGamma "readData" gammaResult
    (List.mem_cons_self extGamma []) rfl rfl

/-- C10: within a single unit, a decorated helper method whose name equals
a `createHelpers` entry silently replaces that entry in the merged helper
object before the uniqueness check runs: the merged object maps the name to
the bound decorated method, its keys stay duplicate-free, and the
view-attach pass over that single unit succeeds with the bound method
installed — no duplicate-helper-names error is raised for the within-unit
collision. -/
theorem decorated_helper_replaces_within_unit (ext : Extension) (n : String)
    (hc : (objKeys (ext.createHelpers.getD [])).Nodup)
    (_h1 : objHasKey (ext.createHelpers.getD []) n = true)
    (h2 : objHasKey (ext.decoratedHelpers.getD []) n = true) :
    objLookup (mergedHelpers ext) n = some (boundMethod ext n) ∧
    (objKeys (mergedHelpers ext)).Nodup ∧
    ∃ r, onViewCore [ext] = Except.ok r ∧
      objLookup r.helpers n = some (boundMethod ext n) := by
  have hmerged := mergedHelpers_lookup_decorated ext n h2
  have hnd := mergedHelpers_keys_nodup ext hc
  refine ⟨hmerged, hnd, ?_⟩
  have hfresh : ∀ k ∈ objKeys (mergedHelpers ext), strSetHas ([] : List String) k = false := by
    intro k _
    rfl
  obtain ⟨ns, hb, hreg⟩ := registerHelpers_complete (mergedHelpers ext) [] [] hnd hfresh
  have hkey : objHasKey (mergedHelpers ext) n = true := by
    unfold objHasKey
    rw [hmerged]
    rfl
  have hne : isEmptyObject (mergedHelpers ext) = false :=
    isEmptyObject_false_of_hasKey _ n hkey
  obtain ⟨acc1, hpe, _, hh1⟩ :=
    processExt_of_register { active := [], names := [], helpers := [] } ext ns hb hne hreg
  refine ⟨acc1, ?_, ?_⟩
  · show onViewLoop { active := [], names := [], helpers := [] } [ext] = Except.ok acc1
    unfold onViewLoop
    rw [hpe]
    rfl
  · rw [hh1]
    exact registerHelpers_lookup_new (mergedHelpers ext) [] [] ns hb n
      (boundMethod ext n) hreg hmerged

/-- Witness for the C10 theorem at the concrete unit delta, which declares
`getData` both in `createHelpers` and as a decorated helper. -/
theorem decorated_helper_replaces_within_unit_witness :
    objLookup (mergedHelpers extDelta) "getData" = some (boundMethod extDelta "getData") ∧
    (objKeys (mergedHelpers extDelta)).Nodup ∧
    ∃ r, onViewCore [extDelta] = Except.ok r ∧
      objLookup r.helpers "getData" = some (boundMethod extDelta "getData") :=
  decorated_helper_replaces_within_unit extDelta "getData" (by decide) rfl rfl

/-- Lookup commutes with mapping the values of a JS object. -/
theorem objLookup_map {α β : Type} (f : α → β) (l : List (String × α)) (k : String) :
    objLookup (l.map (fun p => (p.1, f p.2))) k = Option.map f (objLookup l k) := by
  induction l with
  | nil => rfl
  | cons p rest ih =>
      by_cases h : p.1 = k
      · simp [objLookup, h]
      · have hb : (p.1 == k) = false := by simp [h]
        simp [objLookup, hb, ih]

/-- A base extension with no decorated metadata. -/
def ext0 : Extension := { name := "base", kind := ExtKind.plain, type := "base" }

/-- A stand-in property descriptor (the method body) for decorator
applications. -/
def descriptor0 : HelperFn := fun a => a

/-- A non-empty command decorator options record marking the command
non-chainable. -/
def cmdOpts1 : CommandDecoratorOptions := { disableChaining := some true }

/-- A keybinding decorator options record with a literal shortcut. -/
def kbOpts1 : KeybindingDecoratorOptions := { shortcut := ShortcutSpec.literal "Mod-b" }

/-- C3 counterexample: applying the command decorator with the empty
options record (the default of a bare decorator application) attaches
nothing — the unit's decoratedCommands map stays absent and holds no
entry for the method name — contrary to the claim that every options
record is attached under the method name. -/
theorem command_decorator_empty_options_attaches_nothing :
    (command {} ext0 "myCommand" descriptor0).decoratedCommands = none ∧
    objLookup ((command {} ext0 "myCommand" descriptor0).decoratedCommands.getD [])
      "myCommand" = none :=
  ⟨rfl, rfl⟩

/-- C3 (amended): each of the three decorators attaches its options record
to the unit's corresponding metadata map under the method name and never
invokes the decorated method (the result is independent of the descriptor,
and every other field of the unit is unchanged) — except that the command
decorator attaches nothing and returns the target unchanged when the
options record is empty. -/
theorem decorators_attach_metadata (options : HelperDecoratorOptions)
    (copts : CommandDecoratorOptions) (kopts : KeybindingDecoratorOptions)
    (t : Extension) (key : String) (d d2 : HelperFn) :
    (helper options t key d = helper options t key d2 ∧
     command copts t key d = command copts t key d2 ∧
     keyBinding kopts t key d = keyBinding kopts t key d2) ∧
    objLookup ((helper options t key d).decoratedHelpers.getD []) key = some options ∧
    ((helper options t key d).name = t.name ∧
     (helper options t key d).kind = t.kind ∧
     (helper options t key d).createHelpers = t.createHelpers ∧
     (helper options t key d).decoratedCommands = t.decoratedCommands ∧
     (helper options t key d).decoratedKeybindings = t.decoratedKeybindings ∧
     (helper options t key d).instanceData = t.instanceData ∧
     (helper options t key d).rawMethods = t.rawMethods) ∧
    (copts.isEmptyObject = false →
      objLookup ((command copts t key d).decoratedCommands.getD []) key = some copts) ∧
    (copts.isEmptyObject = true → command copts t key d = t) ∧
    objLookup ((keyBinding kopts t key d).decoratedKeybindings.getD []) key = some kopts := by
  refine ⟨⟨rfl, rfl, rfl⟩, ?_, ⟨rfl, rfl, rfl, rfl, rfl, rfl, rfl⟩, ?_, ?_, ?_⟩
  · show objLookup (objInsert (t.decoratedHelpers.getD []) key options) key = some options
    exact objLookup_objInsert_self _ key options
  · intro he
    unfold command
    rw [he]
    show objLookup (objInsert (t.decoratedCommands.getD []) key copts) key = some copts
    exact objLookup_objInsert_self _ key copts
  · intro he
    unfold command
    rw [he]
    rfl
  · show objLookup (objInsert (t.decoratedKeybindings.getD []) key kopts) key = some kopts
    exact objLookup_objInsert_self _ key kopts

/-- Witness for the C3 amended theorem at concrete options records and
method names, with the non-empty-options hypotheses discharged. -/
theorem decorators_attach_metadata_witness :
    objLookup ((command cmdOpts1 ext0 "toggleSmall" descriptor0).decoratedCommands.getD [])
      "toggleSmall" = some cmdOpts1 ∧
    objLookup ((helper {} ext0 "getThing" descriptor0).decoratedHelpers.getD [])
      "getThing" = some {} ∧
    objLookup ((keyBinding kbOpts1 ext0 "shortcutKey" descriptor0).decoratedKeybindings.getD [])
      "shortcutKey" = some kbOpts1 :=
  ⟨(decorators_attach_metadata {} cmdOpts1 kbOpts1 ext0 "toggleSmall" descriptor0 idFn).2.2.2.1 rfl,
   (decorators_attach_metadata {} cmdOpts1 kbOpts1 ext0 "getThing" descriptor0 idFn).2.1,
   (decorators_attach_metadata {} cmdOpts1 kbOpts1 ext0 "shortcutKey" descriptor0 idFn).2.2.2.2.2⟩

/-- C4 (code-bug evidence): `freeze` passes every target back unchanged —
its first statement is an unconditional return, so the throwing proxy
below it is never constructed — and therefore a subsequent property
assignment on the returned value succeeds and mutates the object instead
of failing with a mutation error. -/
theorem freeze_returns_target_and_assignment_succeeds :
    freeze [("a", 1)] = FreezeResult.plainValue [("a", 1)] ∧
    setProp (freeze [("a", 1)]) "a" 2 = Except.ok [("a", 2)] ∧
    (∀ target : Obj, freeze target = FreezeResult.plainValue target) :=
  ⟨rfl, rfl, fun _ => rfl⟩

/-- C5: the helpers unit's create hook changes only the string-handler
registry — the `active` and `helpers` store keys and the extension-store
`helpers` key are untouched — while a successful view-attach hook installs
all three; hence helper and active-state queries first become answerable
after the view is attached. -/
theorem helpers_keys_only_set_on_view (store store' : ManagerStore)
    (hok : HelpersOnView store = Except.ok store') :
    (HelpersOnCreate store).activeKey = store.activeKey ∧
    (HelpersOnCreate store).helpersKey = store.helpersKey ∧
    (HelpersOnCreate store).extensionHelpersKey = store.extensionHelpersKey ∧
    (HelpersOnCreate store).extensions = store.extensions ∧
    store'.activeKey.isSome = true ∧
    store'.helpersKey.isSome = true ∧
    store'.extensionHelpersKey.isSome = true := by
  unfold HelpersOnView at hok
  cases hc : onViewCore store.extensions with
  | error e => rw [hc] at hok; cases hok
  | ok r =>
      rw [hc] at hok
      cases hok
      exact ⟨rfl, rfl, rfl, rfl, rfl, rfl, rfl⟩

/-- The empty manager store used by the C5 witness. -/
def store0 : ManagerStore := { extensions := [] }

/-- The store after the view-attach hook of the helpers unit ran on the
empty store. -/
def store0' : ManagerStore :=
  { extensions := [], activeKey := some [], helpersKey := some [],
    extensionHelpersKey := some [] }

/-- Witness for the C5 theorem at the empty manager store. -/
theorem helpers_keys_only_set_on_view_witness :
    (HelpersOnCreate store0).activeKey = store0.activeKey ∧
    (HelpersOnCreate store0).helpersKey = store0.helpersKey ∧
    (HelpersOnCreate store0).extensionHelpersKey = store0.extensionHelpersKey ∧
    (HelpersOnCreate store0).extensions = store0.extensions ∧
    store0'.activeKey.isSome = true ∧
    store0'.helpersKey.isSome = true ∧
    store0'.extensionHelpersKey.isSome = true :=
  helpers_keys_only_set_on_view store0 store0' rfl

/-- C6 counterexample: the JSON-safe envelope does not carry the origins
field — the declaration omits both steps and origins from the raw
envelope and re-adds only steps — so its fields are not the raw
envelope's fields with only steps replaced. -/
theorem jsonSendable_drops_origins :
    objLookup JSONSendable "origins" = none ∧
    objLookup Sendable "origins" = some TSFieldTy.transactionArrayTy :=
  ⟨rfl, rfl⟩

/-- C6 (amended): the JSON-safe variant of the collaboration sendable
envelope carries version and clientID unchanged, replaces the steps field
by a sequence of pre-serialized plain structures, and omits the origins
field entirely. -/
theorem jsonSendable_fields :
    objLookup Sendable "version" = some TSFieldTy.numberTy ∧
    objLookup JSONSendable "version" = some TSFieldTy.numberTy ∧
    objLookup Sendable "clientID" = some TSFieldTy.numberOrStringTy ∧
    objLookup JSONSendable "clientID" = some TSFieldTy.numberOrStringTy ∧
    objLookup Sendable "steps" = some TSFieldTy.stepArrayTy ∧
    objLookup JSONSendable "steps" = some TSFieldTy.plainObjectArrayTy ∧
    objLookup Sendable "origins" = some TSFieldTy.transactionArrayTy ∧
    objLookup JSONSendable "origins" = none ∧
    objKeys JSONSendable = ["version", "clientID", "steps"] :=
  ⟨rfl, rfl, rfl, rfl, rfl, rfl, rfl, rfl, rfl⟩

/-- C7: a command whose function type is non-chainable — the typing the
command decorator produces for `disableChaining: true` options — is sent
by the chained-command mapping to the non-invocable `void` member, so the
chain surface exposes no callable entry for its name, while the direct
surface still exposes a callable command shape for it. -/
theorem nonchainable_absent_from_chain_surface (cmds : List (String × RawCommand))
    (name : String) (c : RawCommand) (hl : objLookup cmds name = some c)
    (hnc : c.returnTy = CommandReturnTy.nonChainableFn) :
    objLookup (chainSurface cmds) name = some ChainedMemberTy.voidMember ∧
    ChainedMemberTy.isCallable ChainedMemberTy.voidMember = false ∧
    (∃ s, objLookup (directSurface cmds) name = some s ∧ s.isCallable = true) ∧
    commandDecoratorFunctionTy (some true) = CommandReturnTy.nonChainableFn := by
  refine ⟨?_, rfl, ?_, rfl⟩
  · unfold chainSurface
    rw [objLookup_map, hl]
    simp [MapToChainedCommand, hnc]
  · unfold directSurface
    rw [objLookup_map, hl]
    exact ⟨MapToUnchainedCommand c, rfl, rfl⟩

/-- A concrete raw command record with one non-chainable and one chainable
command. -/
def sampleCommands : List (String × RawCommand) :=
  [("insertNewLine", { arity := 1, returnTy := CommandReturnTy.nonChainableFn }),
   ("toggleBold", { arity := 0, returnTy := CommandReturnTy.chainableFn })]

/-- Witness for the C7 theorem at the non-chainable command insertNewLine
of the concrete record. -/
theorem nonchainable_absent_from_chain_surface_witness :
    objLookup (chainSurface sampleCommands) "insertNewLine" =
      some ChainedMemberTy.voidMember ∧
    ChainedMemberTy.isCallable ChainedMemberTy.voidMember = false ∧
    (∃ s, objLookup (directSurface sampleCommands) "insertNewLine" = some s ∧
      s.isCallable = true) ∧
    commandDecoratorFunctionTy (some true) = CommandReturnTy.nonChainableFn :=
  nonchainable_absent_from_chain_surface sampleCommands "insertNewLine"
    { arity := 1, returnTy := CommandReturnTy.nonChainableFn } rfl rfl

/-- C8: the helpers unit's create hook registers exactly the two string
handlers named `text` and `html` and changes nothing else in the store;
for every content string and options, the text handler wraps the content
as a pre element and delegates to the handler registered under the key
`html` with the wrapped content, preserving the remaining options. -/
theorem create_registers_text_and_html :
    (∀ store : ManagerStore,
      (HelpersOnCreate store).stringHandlers =
        objInsert (objInsert store.stringHandlers "text" HandlerTag.textHandler)
          "html" HandlerTag.htmlHandler) ∧
    objKeys (HelpersOnCreate { extensions := [] }).stringHandlers = ["text", "html"] ∧
    (∀ options : StringHandlerOptions,
      runHandlerTag HandlerTag.textHandler options =
        HandlerResult.delegatesTo "html"
          { content := "<pre>" ++ options.content ++ "</pre>",
            otherOptions := options.otherOptions }) ∧
    (∀ (htmlHandler : StringHandlerOptions → PMNode) (options : StringHandlerOptions),
      textToProsemirrorNode htmlHandler options =
        htmlHandler { content := "<pre>" ++ options.content ++ "</pre>",
                      otherOptions := options.otherOptions }) :=
  ⟨fun _ => rfl, rfl, fun _ => rfl, fun _ _ => rfl⟩

end Remirror
